import Mathlib

/-!
Verification development for a multi-symbol exchange trading bot
(`MultiSymbolDeltaTrader` in `app.py`).

The per-tick decision logic of the bot is embedded as pure Lean functions.
Python floats are modelled as rational numbers (`ℚ`); the exchange and the
order gateway are modelled by explicit inputs (current position, open orders,
price, balance, order-placement outcome) and by an explicit list of dispatched
events.  Python truthiness of a float (`if not x`) is modelled by testing both
for absence (`Option.none`) and for the value `0`.
-/

namespace DeltaTrader

/-- Order side, as used by the exchange client (`'buy'` / `'sell'`). -/
inductive Side where
  | buy
  | sell
  deriving DecidableEq

/-- Per-symbol configuration entry of `self.config` (`app.py` lines 34-95). -/
structure SymbolConfig where
  product_id : Nat
  base_qty : ℚ
  min_lot_size : ℚ
  target_percent : ℚ
  stop_loss_percent : ℚ
  averaging_trigger : ℚ
  max_average_orders : Nat
  leverage : ℚ
  enabled : Bool
  deriving DecidableEq

/-- Position dictionary returned by `get_position` (`app.py` lines 592-606).
`get_position` only returns positions with nonzero size; the side is derived
from the sign of the size (`'long' if size > 0 else 'short'`). -/
structure Position where
  size : ℚ
  entry_price : ℚ
  mark_price : ℚ
  deriving DecidableEq

/-- An open order at the exchange, as returned by `get_live_orders`. -/
structure OpenOrder where
  product_id : Nat
  side : Side
  limit_price : ℚ
  size : ℚ
  deriving DecidableEq

/-- Side string computed from the position size: `'long' if size > 0 else 'short'`. -/
def position_is_long (p : Position) : Bool :=
  decide (0 < p.size)

/-- An order dispatched to the exchange, used to record what reaches the
order gateway during one evaluation. -/
inductive Event where
  | cancelAll (sym : String)
  | market (sym : String) (side : Side) (qty : ℚ)
  | limit (sym : String) (side : Side) (qty : ℚ) (price : ℚ)
  deriving DecidableEq

/-- The process-local mutable state of the bot: the per-symbol averaging
counts (`self.averaging_counts`) and the trade counters. -/
structure BotState where
  counts : List (String × Nat)
  total_trades : Nat
  successful_trades : Nat
  deriving DecidableEq

/-- Result of evaluating one code path: the orders dispatched to the
gateway (in dispatch order), the state after the call, and the returned
boolean. -/
structure RunResult where
  events : List Event
  state : BotState
  ok : Bool
  deriving DecidableEq

/-- Lookup in the `averaging_counts` dictionary. -/
def lookupCount : List (String × Nat) → String → Option Nat
  | [], _ => none
  | (k, v) :: rest, sym => if k = sym then some v else lookupCount rest sym

/-- Assignment `averaging_counts[sym] = v`. -/
def setCount : List (String × Nat) → String → Nat → List (String × Nat)
  | [], sym, v => [(sym, v)]
  | (k, w) :: rest, sym, v =>
      if k = sym then (k, v) :: rest else (k, w) :: setCount rest sym v

/-- Deletion `del averaging_counts[sym]` (a no-op when the key is absent,
matching the guarded `if symbol in self.averaging_counts` in the source). -/
def delCount : List (String × Nat) → String → List (String × Nat)
  | [], _ => []
  | (k, v) :: rest, sym =>
      if k = sym then delCount rest sym else (k, v) :: delCount rest sym

/-- Embeds `get_position` (`app.py` lines 560-615) as observed through its
effect on the bot state: it returns the fresh position, and when no position
is found it deletes the symbol's averaging count (lines 608-610). -/
def get_position_effect (sym : String) (pos : Option Position)
    (counts : List (String × Nat)) : Option Position × List (String × Nat) :=
  match pos with
  | some p => (some p, counts)
  | none => (none, delCount counts sym)

/-- Embeds `get_target_orders` (`app.py` lines 655-687): among the open
orders of the symbol's product, keep sell orders for a long position and buy
orders for a short position. -/
def get_target_orders (cfg : SymbolConfig) (p : Position)
    (orders : List OpenOrder) : List OpenOrder :=
  orders.filter fun o =>
    (o.product_id == cfg.product_id) &&
      (if position_is_long p then o.side == Side.sell else o.side == Side.buy)

/-- Fold computing `min` over a list of prices (Python `min(...)`). -/
def list_min : List ℚ → Option ℚ
  | [] => none
  | x :: xs => some (xs.foldl min x)

/-- Fold computing `max` over a list of prices (Python `max(...)`). -/
def list_max : List ℚ → Option ℚ
  | [] => none
  | x :: xs => some (xs.foldl max x)

/-- Embeds `get_lowest_target_price` (`app.py` lines 689-712): `None` when
there are no target orders, the minimum target limit price for a long
position, and the maximum target limit price for a short position. -/
def get_lowest_target_price (cfg : SymbolConfig) (p : Position)
    (orders : List OpenOrder) : Option ℚ :=
  let prices := (get_target_orders cfg p orders).map OpenOrder.limit_price
  if position_is_long p then list_min prices else list_max prices

/-- Embeds the decision part of `check_and_enter_position` (`app.py` lines
847-891): the guards checked before the entry market order is dispatched,
returning the `(side, qty)` of the market order to place, or `none`.
The price argument models `get_price`; `Option.none` and the value `0` are
both falsy for the `if not current_price` guard. -/
def check_and_enter_order (cfg : SymbolConfig) (pos : Option Position)
    (price : Option ℚ) (balance : ℚ) : Option (Side × ℚ) :=
  match pos with
  | some _ => none
  | none =>
    if cfg.enabled then
      if balance < 10 then none
      else
        match price with
        | none => none
        | some current_price =>
          if current_price = 0 then none
          else
            let cost := current_price * cfg.base_qty * cfg.min_lot_size / cfg.leverage
            if balance < cost then none
            else some (Side.buy, cfg.base_qty)
    else none

/-- Supervisor-level view of the entry decision: at this point of the tick
the open-orders list of the symbol is available to the program (it is fetched
by `get_target_orders` and `get_all_open_orders`), and the entry path of
`check_and_enter_position` does not consult it. -/
def tick_enter_order (cfg : SymbolConfig) (openOrders : List OpenOrder)
    (pos : Option Position) (price : Option ℚ) (balance : ℚ) :
    Option (Side × ℚ) :=
  check_and_enter_order cfg pos price balance

/-- A live open order with the same symbol (product), side and size signature
as a candidate market order. -/
def duplicate_live_order (cfg : SymbolConfig) (orders : List OpenOrder)
    (side : Side) (qty : ℚ) : Bool :=
  orders.any fun o =>
    (o.product_id == cfg.product_id) && (o.side == side) && (o.size == qty)

/-- Embeds the decision part of `check_averaging` (`app.py` lines 917-974):
the guards checked before the averaging market order is dispatched, returning
the `(side, qty)` of the market order to place, or `none`.  The `count`
argument is `averaging_counts.get(symbol)`; a missing count reads as `0`
(lines 923-925).  `if not lowest_target` and `if not current_price` treat
both `None` and `0.0` as falsy. -/
def check_averaging_order (cfg : SymbolConfig) (pos : Option Position)
    (orders : List OpenOrder) (price : Option ℚ) (balance : ℚ)
    (count : Option Nat) : Option (Side × ℚ) :=
  match pos with
  | none => none
  | some p =>
    let c := count.getD 0
    if cfg.max_average_orders ≤ c then none
    else
      match get_lowest_target_price cfg p orders with
      | none => none
      | some lowest_target =>
        if lowest_target = 0 then none
        else
          match price with
          | none => none
          | some current_price =>
            if current_price = 0 then none
            else
              let price_diff_percent :=
                if position_is_long p then
                  ((lowest_target - current_price) / lowest_target) * 100
                else
                  ((current_price - lowest_target) / lowest_target) * 100
              if cfg.averaging_trigger ≤ price_diff_percent then
                let averaging_qty := cfg.base_qty
                let cost := current_price * averaging_qty
                if balance < cost then none
                else
                  some (if position_is_long p then Side.buy else Side.sell,
                        averaging_qty)
              else none

/-- Embeds the target computation of `place_initial_target` (`app.py` lines
816-842): returns `(side, order_qty, target_price)` of the limit order it
places. -/
def place_initial_target (cfg : SymbolConfig) (entry_price : ℚ)
    (position_size : ℚ) : Side × ℚ × ℚ :=
  let target_price :=
    if 0 < position_size then entry_price * (1 + cfg.target_percent / 100)
    else entry_price * (1 - cfg.target_percent / 100)
  let side := if 0 < position_size then Side.sell else Side.buy
  let order_qty := min |position_size| cfg.base_qty
  (side, order_qty, target_price)

/-- Embeds the full `check_and_enter_position` call (`app.py` lines 847-915)
as a state transition.  Inputs beyond the decision guards: `orderOk` is
whether `place_market_order` returned an order object (on success it
increments `total_trades`, lines 749-758), and `posAfter` is the position
refetched after the fill wait (line 899; when it is absent, `get_position`
deletes the averaging count).  On a confirmed position the target limit
order of `place_initial_target` is dispatched and the averaging count is
initialised to `0` (line 910). -/
def check_and_enter_run (cfg : SymbolConfig) (sym : String)
    (pos : Option Position) (price : Option ℚ) (balance : ℚ)
    (orderOk : Bool) (posAfter : Option Position) (st : BotState) : RunResult :=
  match pos with
  | some _ => ⟨[], st, false⟩
  | none =>
    let counts0 := delCount st.counts sym
    match check_and_enter_order cfg none price balance with
    | none => ⟨[], { st with counts := counts0 }, false⟩
    | some (side, qty) =>
      if orderOk then
        match posAfter with
        | some p1 =>
          let t := place_initial_target cfg p1.entry_price p1.size
          ⟨[Event.market sym side qty, Event.limit sym t.1 t.2.1 t.2.2],
           ⟨setCount counts0 sym 0, st.total_trades + 1, st.successful_trades⟩,
           true⟩
        | none =>
          ⟨[Event.market sym side qty],
           ⟨delCount counts0 sym, st.total_trades + 1, st.successful_trades⟩,
           false⟩
      else ⟨[Event.market sym side qty], { st with counts := counts0 }, false⟩

/-- Embeds the full `check_averaging` call (`app.py` lines 917-999) as a
state transition.  A missing count is first initialised to `0` (lines
923-925); on a successful averaging market order the count is incremented by
one (line 977) and, if the refetched position exists, a new target limit
order is placed from the current price (lines 983-995); if the refetch finds
no position, `get_position` deletes the count. -/
def check_averaging_run (cfg : SymbolConfig) (sym : String)
    (pos : Option Position) (orders : List OpenOrder) (price : Option ℚ)
    (balance : ℚ) (orderOk : Bool) (posAfter : Option Position)
    (st : BotState) : RunResult :=
  match pos with
  | none => ⟨[], { st with counts := delCount st.counts sym }, false⟩
  | some p =>
    let counts1 :=
      match lookupCount st.counts sym with
      | none => setCount st.counts sym 0
      | some _ => st.counts
    let c := (lookupCount st.counts sym).getD 0
    match check_averaging_order cfg (some p) orders price balance (some c) with
    | none => ⟨[], { st with counts := counts1 }, false⟩
    | some (side, qty) =>
      if orderOk then
        let counts2 := setCount counts1 sym (c + 1)
        match posAfter with
        | some p1 =>
          let current_price := price.getD 0
          let target_price :=
            if position_is_long p1 then
              current_price * (1 + cfg.target_percent / 100)
            else current_price * (1 - cfg.target_percent / 100)
          let tside := if position_is_long p1 then Side.sell else Side.buy
          ⟨[Event.market sym side qty, Event.limit sym tside qty target_price],
           ⟨counts2, st.total_trades + 1, st.successful_trades⟩, true⟩
        | none =>
          ⟨[Event.market sym side qty],
           ⟨delCount counts2 sym, st.total_trades + 1, st.successful_trades⟩,
           false⟩
      else
        ⟨[Event.market sym side qty], { st with counts := counts1 }, false⟩

/-- Embeds `close_position` (`app.py` lines 1033-1063) as a state
transition: with a position present it first cancels all open orders for the
symbol, then places a market order on the opposite side sized to the full
absolute position size; only when the order call succeeds does it delete the
symbol's averaging count and increment `successful_trades`. -/
def close_position_run (sym : String) (pos : Option Position)
    (orderOk : Bool) (st : BotState) : RunResult :=
  match pos with
  | none => ⟨[], { st with counts := delCount st.counts sym }, false⟩
  | some p =>
    let side := if 0 < p.size then Side.sell else Side.buy
    let events := [Event.cancelAll sym, Event.market sym side |p.size|]
    if orderOk then
      ⟨events,
       ⟨delCount st.counts sym, st.total_trades + 1, st.successful_trades + 1⟩,
       true⟩
    else ⟨events, st, false⟩

/-- Embeds `check_and_manage_position` (`app.py` lines 1001-1031): with a
position and a resolvable price it runs the averaging check; with no
position (whose observation deletes the averaging count) it attempts entry
only when the symbol is enabled. -/
def check_and_manage_run (cfg : SymbolConfig) (sym : String)
    (pos : Option Position) (orders : List OpenOrder) (price : Option ℚ)
    (balance : ℚ) (orderOk : Bool) (posAfter : Option Position)
    (st : BotState) : RunResult :=
  match pos with
  | some p =>
    match price with
    | none => ⟨[], st, false⟩
    | some current_price =>
      if current_price = 0 then ⟨[], st, false⟩
      else
        check_averaging_run cfg sym (some p) orders (some current_price)
          balance orderOk posAfter st
  | none =>
    let st1 : BotState := { st with counts := delCount st.counts sym }
    if cfg.enabled then
      check_and_enter_run cfg sym none price balance orderOk posAfter st1
    else ⟨[], st1, false⟩

/-- Embeds the per-symbol step of the trading loop
(`run_multi_symbol_trading`, `app.py` lines 1181-1183): a symbol is
evaluated at all only when its `enabled` flag is set. -/
def tick_symbol_run (cfg : SymbolConfig) (sym : String)
    (pos : Option Position) (orders : List OpenOrder) (price : Option ℚ)
    (balance : ℚ) (orderOk : Bool) (posAfter : Option Position)
    (st : BotState) : RunResult :=
  if cfg.enabled then
    check_and_manage_run cfg sym pos orders price balance orderOk posAfter st
  else ⟨[], st, false⟩

lemma lookupCount_delCount_self (l : List (String × Nat)) (sym : String) :
    lookupCount (delCount l sym) sym = none := by
  induction l with
  | nil => rfl
  | cons kv rest ih =>
    obtain ⟨k, v⟩ := kv
    by_cases h : k = sym <;> simp [delCount, h, lookupCount, ih]

lemma lookupCount_setCount_self (l : List (String × Nat)) (sym : String)
    (v : Nat) : lookupCount (setCount l sym v) sym = some v := by
  induction l with
  | nil => simp [setCount, lookupCount]
  | cons kv rest ih =>
    obtain ⟨k, w⟩ := kv
    by_cases h : k = sym <;> simp [setCount, h, lookupCount, ih]

lemma foldl_min_le_init (xs : List ℚ) (a : ℚ) : xs.foldl min a ≤ a := by
  induction xs generalizing a with
  | nil => simp
  | cons x xs ih =>
    exact le_trans (ih (min a x)) (min_le_left a x)

lemma foldl_min_le_mem (xs : List ℚ) (a y : ℚ) (hy : y ∈ xs) :
    xs.foldl min a ≤ y := by
  induction xs generalizing a with
  | nil => cases hy
  | cons x xs ih =>
    rcases List.mem_cons.mp hy with h | h
    · rw [h]
      exact le_trans (foldl_min_le_init xs (min a x)) (min_le_right a x)
    · exact ih (min a x) h

lemma foldl_min_mem (xs : List ℚ) (a : ℚ) :
    xs.foldl min a = a ∨ xs.foldl min a ∈ xs := by
  induction xs generalizing a with
  | nil => left; rfl
  | cons x xs ih =>
    rcases ih (min a x) with h | h
    · rcases min_choice a x with h' | h'
      · left; rw [List.foldl_cons, h, h']
      · right; rw [List.foldl_cons, h, h']; exact List.mem_cons_self x xs
    · right; exact List.mem_cons_of_mem x h

lemma foldl_max_init_le (xs : List ℚ) (a : ℚ) : a ≤ xs.foldl max a := by
  induction xs generalizing a with
  | nil => simp
  | cons x xs ih =>
    exact le_trans (le_max_left a x) (ih (max a x))

lemma foldl_max_mem_le (xs : List ℚ) (a y : ℚ) (hy : y ∈ xs) :
    y ≤ xs.foldl max a := by
  induction xs generalizing a with
  | nil => cases hy
  | cons x xs ih =>
    rcases List.mem_cons.mp hy with h | h
    · rw [h]
      exact le_trans (le_max_right a x) (foldl_max_init_le xs (max a x))
    · exact ih (max a x) h

lemma foldl_max_mem (xs : List ℚ) (a : ℚ) :
    xs.foldl max a = a ∨ xs.foldl max a ∈ xs := by
  induction xs generalizing a with
  | nil => left; rfl
  | cons x xs ih =>
    rcases ih (max a x) with h | h
    · rcases max_choice a x with h' | h'
      · left; rw [List.foldl_cons, h, h']
      · right; rw [List.foldl_cons, h, h']; exact List.mem_cons_self x xs
    · right; exact List.mem_cons_of_mem x h

lemma list_min_spec (l : List ℚ) (v : ℚ) (h : list_min l = some v) :
    v ∈ l ∧ ∀ x ∈ l, v ≤ x := by
  match l with
  | [] => cases h
  | x :: xs =>
    simp only [list_min, Option.some.injEq] at h
    subst h
    constructor
    · rcases foldl_min_mem xs x with h' | h'
      · rw [h']; exact List.mem_cons_self x xs
      · exact List.mem_cons_of_mem x h'
    · intro y hy
      rcases List.mem_cons.mp hy with h' | h'
      · rw [h']; exact foldl_min_le_init xs x
      · exact foldl_min_le_mem xs x y h'

lemma list_max_spec (l : List ℚ) (v : ℚ) (h : list_max l = some v) :
    v ∈ l ∧ ∀ x ∈ l, x ≤ v := by
  match l with
  | [] => cases h
  | x :: xs =>
    simp only [list_max, Option.some.injEq] at h
    subst h
    constructor
    · rcases foldl_max_mem xs x with h' | h'
      · rw [h']; exact List.mem_cons_self x xs
      · exact List.mem_cons_of_mem x h'
    · intro y hy
      rcases List.mem_cons.mp hy with h' | h'
      · rw [h']; exact foldl_max_init_le xs x
      · exact foldl_max_mem_le xs x y h'

lemma check_and_enter_order_eq_ite (cfg : SymbolConfig) (price : Option ℚ)
    (balance : ℚ) (cp : ℚ) (hen : cfg.enabled = true) (hbal : 10 ≤ balance)
    (hp : price = some cp) (hcp : cp ≠ 0) :
    check_and_enter_order cfg none price balance =
      if cp * cfg.base_qty * cfg.min_lot_size / cfg.leverage ≤ balance then
        some (Side.buy, cfg.base_qty)
      else none := by
  subst hp
  simp only [check_and_enter_order, hen, if_true, hcp, if_false, not_lt.mpr hbal]
  by_cases h : cp * cfg.base_qty * cfg.min_lot_size / cfg.leverage ≤ balance
  · rw [if_neg (not_lt.mpr h), if_pos h]
  · rw [if_pos (lt_of_not_le h), if_neg h]

lemma check_averaging_order_eq_ite (cfg : SymbolConfig) (p : Position)
    (orders : List OpenOrder) (balance : ℚ) (count : Option Nat) (L cp : ℚ)
    (hL : get_lowest_target_price cfg p orders = some L) (hL0 : L ≠ 0)
    (hcp : cp ≠ 0) :
    check_averaging_order cfg (some p) orders (some cp) balance count =
      if cfg.averaging_trigger ≤
            (if position_is_long p then ((L - cp) / L) * 100
             else ((cp - L) / L) * 100) ∧
          count.getD 0 < cfg.max_average_orders ∧
          cp * cfg.base_qty ≤ balance then
        some (if position_is_long p then Side.buy else Side.sell, cfg.base_qty)
      else none := by
  simp only [check_averaging_order, hL, hL0, if_false, hcp]
  by_cases hmax : cfg.max_average_orders ≤ count.getD 0
  · rw [if_pos hmax, if_neg]
    intro h
    exact absurd h.2.1 (not_lt.mpr hmax)
  · rw [if_neg hmax]
    by_cases htrig : cfg.averaging_trigger ≤
        (if position_is_long p then ((L - cp) / L) * 100
         else ((cp - L) / L) * 100)
    · rw [if_pos htrig]
      by_cases hbal : balance < cp * cfg.base_qty
      · rw [if_pos hbal, if_neg]
        intro h
        exact absurd h.2.2 (not_le.mpr hbal)
      · rw [if_neg hbal]
        have hc : (cfg.averaging_trigger ≤
              (if position_is_long p then ((L - cp) / L) * 100
               else ((cp - L) / L) * 100)) ∧
            count.getD 0 < cfg.max_average_orders ∧
            cp * cfg.base_qty ≤ balance :=
          ⟨htrig, lt_of_not_le hmax, not_lt.mp hbal⟩
        rw [if_pos hc]
    · rw [if_neg htrig, if_neg]
      intro h
      exact htrig h.1

/-- The BTCUSD entry of `self.config` (`app.py` lines 35-46): product 27,
base quantity 1, minimum lot size 0.001, target 1%, stop-loss 2%, averaging
trigger 2%, at most 8 averaging orders, leverage 200, enabled. -/
def btcConfig : SymbolConfig :=
  ⟨27, 1, 1 / 1000, 1, 2, 2, 8, 200, true⟩

/-- A copy of the BTCUSD configuration with the `enabled` flag cleared. -/
def btcDisabled : SymbolConfig :=
  ⟨27, 1, 1 / 1000, 1, 2, 2, 8, 200, false⟩

/-- C3: for every symbol whose add-on count has reached the configured
maximum (`addOnCount == maxAddOnCount`), the per-tick decision never
produces an AverageDown action, regardless of the price deviation or any
other input: the decision function returns no order, and the averaging step
dispatches nothing. -/
theorem C3_max_addons_block_averaging (cfg : SymbolConfig) (sym : String)
    (pos : Option Position) (orders : List OpenOrder) (price : Option ℚ)
    (balance : ℚ) (orderOk : Bool) (posAfter : Option Position)
    (st : BotState)
    (h : lookupCount st.counts sym = some cfg.max_average_orders) :
    check_averaging_order cfg pos orders price balance
        (some cfg.max_average_orders) = none ∧
    (check_averaging_run cfg sym pos orders price balance orderOk posAfter
        st).events = [] := by
  have hdec : ∀ pos2, check_averaging_order cfg pos2 orders price balance
      (some cfg.max_average_orders) = none := by
    intro pos2
    cases pos2 with
    | none => rfl
    | some p => simp [check_averaging_order]
  refine ⟨hdec pos, ?_⟩
  cases pos with
  | none => rfl
  | some p =>
    simp only [check_averaging_run, h, Option.getD_some, hdec (some p)]

/-- C3 witness: a BTCUSD long position whose add-on count has reached the
maximum of 8 yields no averaging order. -/
theorem C3_witness :
    check_averaging_order btcConfig (some ⟨1, 100, 99⟩) [] (some 99) 1000
        (some btcConfig.max_average_orders) = none ∧
    (check_averaging_run btcConfig "BTCUSD" (some ⟨1, 100, 99⟩) [] (some 99)
        1000 true none ⟨[("BTCUSD", 8)], 0, 0⟩).events = [] :=
  C3_max_addons_block_averaging btcConfig "BTCUSD" (some ⟨1, 100, 99⟩) []
    (some 99) 1000 true none ⟨[("BTCUSD", 8)], 0, 0⟩ (by rfl)

/-- C5: on a non-empty target-order list the governing trigger price is, for
a long position, the least limit price among the open sell orders of the
product and, for a short position, the greatest limit price among the open
buy orders of the product. -/
theorem C5_governing_target_selection (cfg : SymbolConfig) (p : Position)
    (orders : List OpenOrder) (v : ℚ)
    (h : get_lowest_target_price cfg p orders = some v) :
    (0 < p.size →
      get_target_orders cfg p orders = orders.filter (fun o =>
        (o.product_id == cfg.product_id) && (o.side == Side.sell)) ∧
      v ∈ (get_target_orders cfg p orders).map OpenOrder.limit_price ∧
      ∀ x ∈ (get_target_orders cfg p orders).map OpenOrder.limit_price,
        v ≤ x) ∧
    (p.size < 0 →
      get_target_orders cfg p orders = orders.filter (fun o =>
        (o.product_id == cfg.product_id) && (o.side == Side.buy)) ∧
      v ∈ (get_target_orders cfg p orders).map OpenOrder.limit_price ∧
      ∀ x ∈ (get_target_orders cfg p orders).map OpenOrder.limit_price,
        x ≤ v) := by
  constructor
  · intro hl
    have hb : position_is_long p = true := by
      simp [position_is_long]; exact hl
    have hsel : get_target_orders cfg p orders = orders.filter (fun o =>
        (o.product_id == cfg.product_id) && (o.side == Side.sell)) := by
      simp [get_target_orders, hb]
    refine ⟨hsel, ?_⟩
    simp only [get_lowest_target_price, hb, if_true] at h
    exact list_min_spec _ _ h
  · intro hs
    have hb : position_is_long p = false := by
      simp [position_is_long]; linarith
    have hsel : get_target_orders cfg p orders = orders.filter (fun o =>
        (o.product_id == cfg.product_id) && (o.side == Side.buy)) := by
      simp [get_target_orders, hb]
    refine ⟨hsel, ?_⟩
    simp only [get_lowest_target_price, hb, if_false, Bool.false_eq_true] at h
    exact list_max_spec _ _ h

/-- C5 witness: with sell targets at 101, 99 and 103 a long position is
governed by 99; with buy targets at the same prices a short position is
governed by 103. -/
theorem C5_witness :
    get_lowest_target_price btcConfig ⟨1, 100, 100⟩
        [⟨27, Side.sell, 101, 1⟩, ⟨27, Side.sell, 99, 1⟩,
         ⟨27, Side.sell, 103, 1⟩] = some 99 ∧
    (∀ x ∈ (get_target_orders btcConfig ⟨1, 100, 100⟩
        [⟨27, Side.sell, 101, 1⟩, ⟨27, Side.sell, 99, 1⟩,
         ⟨27, Side.sell, 103, 1⟩]).map OpenOrder.limit_price, (99 : ℚ) ≤ x) ∧
    get_lowest_target_price btcConfig ⟨-1, 100, 100⟩
        [⟨27, Side.buy, 101, 1⟩, ⟨27, Side.buy, 99, 1⟩,
         ⟨27, Side.buy, 103, 1⟩] = some 103 ∧
    (∀ x ∈ (get_target_orders btcConfig ⟨-1, 100, 100⟩
        [⟨27, Side.buy, 101, 1⟩, ⟨27, Side.buy, 99, 1⟩,
         ⟨27, Side.buy, 103, 1⟩]).map OpenOrder.limit_price, x ≤ 103) := by
  have h1 : get_lowest_target_price btcConfig ⟨1, 100, 100⟩
      [⟨27, Side.sell, 101, 1⟩, ⟨27, Side.sell, 99, 1⟩,
       ⟨27, Side.sell, 103, 1⟩] = some 99 := by
    norm_num [get_lowest_target_price, get_target_orders, position_is_long,
      list_min, btcConfig, min_def]
  have h2 : get_lowest_target_price btcConfig ⟨-1, 100, 100⟩
      [⟨27, Side.buy, 101, 1⟩, ⟨27, Side.buy, 99, 1⟩,
       ⟨27, Side.buy, 103, 1⟩] = some 103 := by
    norm_num [get_lowest_target_price, get_target_orders, position_is_long,
      list_max, btcConfig, max_def]
  refine ⟨h1, ?_, h2, ?_⟩
  · exact ((C5_governing_target_selection btcConfig ⟨1, 100, 100⟩ _ 99 h1).1
      (by norm_num)).2.2
  · exact ((C5_governing_target_selection btcConfig ⟨-1, 100, 100⟩ _ 103 h2).2
      (by norm_num)).2.2

/-- C6: the target order computed after an entry is deterministic and
side-correct: for a long position the limit price is
`referencePrice * (1 + targetPercent/100)`, strictly above the reference,
with side sell; for a short position it is
`referencePrice * (1 - targetPercent/100)`, strictly below the reference,
with side buy, for every positive reference price and positive target
percent. -/
theorem C6_target_side_and_price (cfg : SymbolConfig)
    (entry_price position_size : ℚ) (he : 0 < entry_price)
    (ht : 0 < cfg.target_percent) :
    (0 < position_size →
      (place_initial_target cfg entry_price position_size).1 = Side.sell ∧
      (place_initial_target cfg entry_price position_size).2.2 =
        entry_price * (1 + cfg.target_percent / 100) ∧
      entry_price < (place_initial_target cfg entry_price position_size).2.2) ∧
    (position_size < 0 →
      (place_initial_target cfg entry_price position_size).1 = Side.buy ∧
      (place_initial_target cfg entry_price position_size).2.2 =
        entry_price * (1 - cfg.target_percent / 100) ∧
      (place_initial_target cfg entry_price position_size).2.2 <
        entry_price) := by
  constructor
  · intro hl
    refine ⟨by simp [place_initial_target, hl], by simp [place_initial_target, hl], ?_⟩
    simp only [place_initial_target, if_pos hl]
    nlinarith
  · intro hs
    have hns : ¬(0 < position_size) := by linarith
    refine ⟨by simp [place_initial_target, hns], by simp [place_initial_target, hns], ?_⟩
    simp only [place_initial_target, if_neg hns]
    nlinarith

/-- C6 witness: with the BTCUSD configuration (target 1%) and reference
price 100, a long position of size 1 gets a sell target at 101, and a short
position of size -1 gets a buy target at 99. -/
theorem C6_witness :
    (place_initial_target btcConfig 100 1).1 = Side.sell ∧
    (place_initial_target btcConfig 100 1).2.2 =
      100 * (1 + btcConfig.target_percent / 100) ∧
    (100 : ℚ) < (place_initial_target btcConfig 100 1).2.2 ∧
    (place_initial_target btcConfig 100 (-1)).1 = Side.buy ∧
    (place_initial_target btcConfig 100 (-1)).2.2 <
      100 := by
  obtain ⟨a, b, c⟩ := (C6_target_side_and_price btcConfig 100 1 (by norm_num)
    (by norm_num [btcConfig])).1 (by norm_num)
  obtain ⟨d, e, f⟩ := (C6_target_side_and_price btcConfig 100 (-1)
    (by norm_num) (by norm_num [btcConfig])).2 (by norm_num)
  exact ⟨a, b, c, d, f⟩

/-- C9: a symbol whose configuration has `enabled = false` is skipped by the
trading loop: the per-tick evaluation dispatches no order of any kind and
leaves the bot state unchanged, for any input position or price. -/
theorem C9_disabled_symbol_no_action (cfg : SymbolConfig) (sym : String)
    (pos : Option Position) (orders : List OpenOrder) (price : Option ℚ)
    (balance : ℚ) (orderOk : Bool) (posAfter : Option Position)
    (st : BotState) (h : cfg.enabled = false) :
    tick_symbol_run cfg sym pos orders price balance orderOk posAfter st =
      ⟨[], st, false⟩ := by
  simp [tick_symbol_run, h]

/-- C9 witness: the disabled BTCUSD configuration produces no events on a
tick, even when flat with ample balance and a resolvable price. -/
theorem C9_witness :
    tick_symbol_run btcDisabled "BTCUSD" none [] (some 100) 1000 true none
      ⟨[], 0, 0⟩ = ⟨[], ⟨[], 0, 0⟩, false⟩ :=
  C9_disabled_symbol_no_action btcDisabled "BTCUSD" none [] (some 100) 1000
    true none ⟨[], 0, 0⟩ (by rfl)

/-- C10: every entry order the program itself initiates is a market buy:
whenever the entry path decides to dispatch, the dispatched side is buy, and
the averaging path never dispatches without an existing position, so short
positions can only arise outside the program. -/
theorem C10_entry_is_always_buy :
    (∀ cfg pos price balance s q,
      check_and_enter_order cfg pos price balance = some (s, q) →
      s = Side.buy) ∧
    (∀ cfg orders price balance count,
      check_averaging_order cfg none orders price balance count = none) := by
  constructor
  · intro cfg pos price balance s q h
    cases pos with
    | some p => exact absurd h (by simp [check_and_enter_order])
    | none =>
      cases price with
      | none => simp only [check_and_enter_order] at h; split_ifs at h
      | some cp =>
        simp only [check_and_enter_order] at h
        split_ifs at h
        exact (Prod.mk.injEq _ _ _ _ ▸ Option.some.injEq _ _ ▸ h).1.symm
  · intro cfg orders price balance count
    rfl

/-- C10 witness: a concrete flat-entry decision for BTCUSD at price 50 with
balance 100 dispatches a buy order. -/
theorem C10_witness : Side.buy = Side.buy ∧
    check_and_enter_order btcConfig none (some 50) 100 =
      some (Side.buy, 1) := by
  have h : check_and_enter_order btcConfig none (some 50) 100 =
      some (Side.buy, 1) := by
    norm_num [check_and_enter_order, btcConfig]
  exact ⟨(C10_entry_is_always_buy.1 btcConfig none (some 50) 100 Side.buy 1
    h).symm ▸ rfl, h⟩

/-- C4: for a held position with a governing trigger price `L` and a
resolvable mark price `cp`, the deviation is `(L - cp)/L * 100` for a long
position and `(cp - L)/L * 100` for a short one, and an averaging market
order in the direction of the position is produced exactly when the
deviation reaches the averaging trigger percent, the add-on count is below
the maximum, and the balance covers the add-on cost. -/
theorem C4_averaging_deviation_rule (cfg : SymbolConfig) (p : Position)
    (orders : List OpenOrder) (balance : ℚ) (count : Option Nat) (L cp : ℚ)
    (hL : get_lowest_target_price cfg p orders = some L) (hL0 : L ≠ 0)
    (hcp : cp ≠ 0) :
    (check_averaging_order cfg (some p) orders (some cp) balance count =
        some ((if 0 < p.size then Side.buy else Side.sell), cfg.base_qty) ↔
      cfg.averaging_trigger ≤
          (if 0 < p.size then ((L - cp) / L) * 100
           else ((cp - L) / L) * 100) ∧
        count.getD 0 < cfg.max_average_orders ∧
        cp * cfg.base_qty ≤ balance) ∧
    (∀ o, check_averaging_order cfg (some p) orders (some cp) balance count =
        some o →
      o = ((if 0 < p.size then Side.buy else Side.sell), cfg.base_qty)) := by
  have heq := check_averaging_order_eq_ite cfg p orders balance count L cp
    hL hL0 hcp
  simp only [position_is_long, decide_eq_true_eq] at heq
  rw [heq]
  constructor
  · by_cases hC : cfg.averaging_trigger ≤
        (if 0 < p.size then ((L - cp) / L) * 100
         else ((cp - L) / L) * 100) ∧
        count.getD 0 < cfg.max_average_orders ∧ cp * cfg.base_qty ≤ balance
    · simp [hC]
    · simp [hC]
  · intro o ho
    by_cases hC : cfg.averaging_trigger ≤
        (if 0 < p.size then ((L - cp) / L) * 100
         else ((cp - L) / L) * 100) ∧
        count.getD 0 < cfg.max_average_orders ∧ cp * cfg.base_qty ≤ balance
    · rw [if_pos hC] at ho
      exact (Option.some.inj ho).symm
    · rw [if_neg hC] at ho
      cases ho

/-- C4 witness: a BTCUSD long position with a single open sell target at 101
and averaging trigger 2% gets AverageDown(buy) at mark price 98.97 and
NoAction at mark price 99.5. -/
theorem C4_witness :
    check_averaging_order btcConfig (some ⟨1, 100, 98.97⟩)
        [⟨27, Side.sell, 101, 1⟩] (some 98.97) 100000 (some 0) =
      some (Side.buy, 1) ∧
    check_averaging_order btcConfig (some ⟨1, 100, 99.5⟩)
        [⟨27, Side.sell, 101, 1⟩] (some 99.5) 100000 (some 0) = none := by
  have h1 : get_lowest_target_price btcConfig ⟨1, 100, 98.97⟩
      [⟨27, Side.sell, 101, 1⟩] = some 101 := by
    norm_num [get_lowest_target_price, get_target_orders, position_is_long,
      list_min, btcConfig]
  constructor
  · have h2 := (C4_averaging_deviation_rule btcConfig ⟨1, 100, 98.97⟩
        [⟨27, Side.sell, 101, 1⟩] 100000 (some 0) 101 98.97 h1
        (by norm_num) (by norm_num)).1.mpr
      ⟨by norm_num [btcConfig], by norm_num [btcConfig], by norm_num [btcConfig]⟩
    simpa [btcConfig] using h2
  · norm_num [check_averaging_order, get_lowest_target_price,
      get_target_orders, position_is_long, list_min, btcConfig]

/-- C7: closing an open position first cancels all open orders for the
symbol, then submits a market order on the opposite side sized to the full
absolute position size; exactly when the closing order call succeeds, the
symbol's averaging state becomes absent and the successful-trade counter
increases by exactly one, and on failure the state is unchanged. -/
theorem C7_close_position_round_trip (sym : String) (p : Position)
    (orderOk : Bool) (st : BotState) :
    (close_position_run sym (some p) orderOk st).events =
      [Event.cancelAll sym,
       Event.market sym (if 0 < p.size then Side.sell else Side.buy)
         |p.size|] ∧
    (orderOk = true →
      lookupCount (close_position_run sym (some p) orderOk st).state.counts
          sym = none ∧
      (close_position_run sym (some p) orderOk st).state.successful_trades =
        st.successful_trades + 1) ∧
    (orderOk = false →
      (close_position_run sym (some p) orderOk st).state = st) := by
  cases orderOk <;> simp [close_position_run, lookupCount_delCount_self]

/-- C7 witness: closing a long BTCUSD position of size 1 with a confirmed
order cancels first, then sells 1 at market, erases the averaging count and
bumps the successful-trade counter from 2 to 3. -/
theorem C7_witness :
    (close_position_run "BTCUSD" (some ⟨1, 100, 99⟩) true
        ⟨[("BTCUSD", 3)], 5, 2⟩).events =
      [Event.cancelAll "BTCUSD",
       Event.market "BTCUSD" (if 0 < (Position.mk 1 100 99).size then Side.sell
         else Side.buy) |(Position.mk 1 100 99).size|] ∧
    lookupCount (close_position_run "BTCUSD" (some ⟨1, 100, 99⟩) true
        ⟨[("BTCUSD", 3)], 5, 2⟩).state.counts "BTCUSD" = none ∧
    (close_position_run "BTCUSD" (some ⟨1, 100, 99⟩) true
        ⟨[("BTCUSD", 3)], 5, 2⟩).state.successful_trades = 2 + 1 := by
  have h := C7_close_position_round_trip "BTCUSD" ⟨1, 100, 99⟩ true
    ⟨[("BTCUSD", 3)], 5, 2⟩
  exact ⟨h.1, (h.2.1 rfl).1, (h.2.1 rfl).2⟩

/-- C8: the per-symbol add-on count lifecycle: it is set to 0 when a new
position is confirmed after entry, incremented by exactly 1 on each
successful add-on order, and deleted when the position is observed closed by
`get_position`, so no count survives its position. -/
theorem C8_addon_count_lifecycle :
    (∀ cfg sym price balance p1 st side qty,
      check_and_enter_order cfg none price balance = some (side, qty) →
      lookupCount (check_and_enter_run cfg sym none price balance true
          (some p1) st).state.counts sym = some 0) ∧
    (∀ cfg sym p orders price balance p1 st o,
      check_averaging_order cfg (some p) orders price balance
          (some ((lookupCount st.counts sym).getD 0)) = some o →
      lookupCount (check_averaging_run cfg sym (some p) orders price balance
          true (some p1) st).state.counts sym =
        some ((lookupCount st.counts sym).getD 0 + 1)) ∧
    (∀ sym counts,
      (get_position_effect sym none counts).2 = delCount counts sym ∧
      lookupCount (get_position_effect sym none counts).2 sym = none) := by
  refine ⟨?_, ?_, ?_⟩
  · intro cfg sym price balance p1 st side qty h
    simp only [check_and_enter_run, h, if_true, lookupCount_setCount_self]
  · intro cfg sym p orders price balance p1 st o h
    simp only [check_averaging_run, h, if_true, lookupCount_setCount_self]
  · intro sym counts
    exact ⟨rfl, lookupCount_delCount_self counts sym⟩

/-- C8 witness: a confirmed BTCUSD entry initialises the count to 0; a
successful add-on with current count 2 yields count 3; observing no position
erases the count. -/
theorem C8_witness :
    lookupCount (check_and_enter_run btcConfig "BTCUSD" none (some 50) 100
        true (some ⟨1, 50, 50⟩) ⟨[], 0, 0⟩).state.counts "BTCUSD" = some 0 ∧
    lookupCount (check_averaging_run btcConfig "BTCUSD" (some ⟨1, 100, 98⟩)
        [⟨27, Side.sell, 101, 1⟩] (some 98) 100000 true (some ⟨2, 99, 98⟩)
        ⟨[("BTCUSD", 2)], 0, 0⟩).state.counts "BTCUSD" = some (2 + 1) ∧
    lookupCount (get_position_effect "BTCUSD" none [("BTCUSD", 2)]).2
      "BTCUSD" = none := by
  refine ⟨?_, ?_, ?_⟩
  · exact C8_addon_count_lifecycle.1 btcConfig "BTCUSD" (some 50) 100
      ⟨1, 50, 50⟩ ⟨[], 0, 0⟩ Side.buy 1
      (by norm_num [check_and_enter_order, btcConfig])
  · have hc : lookupCount (BotState.mk [("BTCUSD", 2)] 0 0).counts "BTCUSD" =
        some 2 := by rfl
    have h := C8_addon_count_lifecycle.2.1 btcConfig "BTCUSD" ⟨1, 100, 98⟩
      [⟨27, Side.sell, 101, 1⟩] (some 98) 100000 ⟨2, 99, 98⟩
      ⟨[("BTCUSD", 2)], 0, 0⟩ (Side.buy, 1) ?_
    · simpa [hc] using h
    · rw [hc]
      norm_num [check_averaging_order, get_lowest_target_price,
        get_target_orders, position_is_long, list_min, btcConfig]
  · exact (C8_addon_count_lifecycle.2.2 "BTCUSD" [("BTCUSD", 2)]).2

/-- C1 counterexample: with a live open buy order of the same product and
size signature already present, the entry path still dispatches: the
decision is an order, not NoAction, and issuing the entry twice within the
same tick window (position still unfilled) sends two market orders to the
gateway. -/
theorem C1_counterexample :
    duplicate_live_order btcConfig [⟨27, Side.buy, 50, 1⟩] Side.buy
      btcConfig.base_qty = true ∧
    tick_enter_order btcConfig [⟨27, Side.buy, 50, 1⟩] none (some 50) 100 =
      some (Side.buy, 1) ∧
    ((check_and_enter_run btcConfig "BTCUSD" none (some 50) 100 true none
        ⟨[], 0, 0⟩).events ++
      (check_and_enter_run btcConfig "BTCUSD" none (some 50) 100 true none
        (check_and_enter_run btcConfig "BTCUSD" none (some 50) 100 true none
          ⟨[], 0, 0⟩).state).events).length = 2 := by
  have hdec : check_and_enter_order btcConfig none (some 50) 100 =
      some (Side.buy, 1) := by
    norm_num [check_and_enter_order, btcConfig]
  refine ⟨by norm_num [duplicate_live_order, btcConfig], ?_, ?_⟩
  · rw [tick_enter_order]
    exact hdec
  · simp [check_and_enter_run, hdec]

/-- C1 amended: no duplicate-order pre-check exists.  The entry decision is
independent of the open-orders list (a live identical order does not prevent
dispatch), and the only entry idempotency guard is the position probe: when
a position already exists for the symbol the entry is skipped. -/
theorem C1_amended_no_duplicate_check :
    (∀ cfg orders orders' pos price balance,
      tick_enter_order cfg orders pos price balance =
        tick_enter_order cfg orders' pos price balance) ∧
    (∀ cfg orders p price balance,
      tick_enter_order cfg orders (some p) price balance = none) :=
  ⟨fun _ _ _ _ _ _ => rfl, fun _ _ _ _ _ => rfl⟩

/-- C2 counterexample: there is no 0.6 margin-usage fraction.  With
available balance 100, a trade whose estimated cost is 60.01 — above
0.6 x 100 — is still dispatched, not rejected. -/
theorem C2_counterexample :
    (12002000 : ℚ) * btcConfig.base_qty * btcConfig.min_lot_size /
        btcConfig.leverage = 60.01 ∧
    (0.6 : ℚ) * 100 < 60.01 ∧
    check_and_enter_order btcConfig none (some 12002000) 100 =
      some (Side.buy, 1) := by
  refine ⟨by norm_num [btcConfig], by norm_num, ?_⟩
  norm_num [check_and_enter_order, btcConfig]

/-- C2 amended: the guard compares the estimated cost against the full
available balance (fraction 1, not 0.6): an entry whose other guards pass is
rejected exactly when the cost exceeds the balance, and an averaging order
whose other guards pass is rejected exactly when its cost
`price x quantity` exceeds the balance.  With balance 100, costs 60 and
60.01 are both permitted and cost 100.01 is rejected. -/
theorem C2_amended_full_balance_guard :
    (∀ cfg price balance cp, cfg.enabled = true → 10 ≤ balance →
      price = some cp → cp ≠ 0 →
      (check_and_enter_order cfg none price balance = none ↔
        balance < cp * cfg.base_qty * cfg.min_lot_size / cfg.leverage)) ∧
    (∀ cfg p orders balance count L cp,
      get_lowest_target_price cfg p orders = some L → L ≠ 0 → cp ≠ 0 →
      cfg.averaging_trigger ≤
        (if position_is_long p then ((L - cp) / L) * 100
         else ((cp - L) / L) * 100) →
      count.getD 0 < cfg.max_average_orders →
      (check_averaging_order cfg (some p) orders (some cp) balance count =
          none ↔ balance < cp * cfg.base_qty)) := by
  constructor
  · intro cfg price balance cp hen hbal hp hcp
    rw [check_and_enter_order_eq_ite cfg price balance cp hen hbal hp hcp]
    by_cases h : cp * cfg.base_qty * cfg.min_lot_size / cfg.leverage ≤ balance
    · simp [h, not_lt.mpr h]
    · simp [h, lt_of_not_le h]
  · intro cfg p orders balance count L cp hL hL0 hcp htrig hcnt
    rw [check_averaging_order_eq_ite cfg p orders balance count L cp hL hL0
      hcp]
    by_cases h : cp * cfg.base_qty ≤ balance
    · have hc : (cfg.averaging_trigger ≤
            (if position_is_long p then ((L - cp) / L) * 100
             else ((cp - L) / L) * 100)) ∧
          count.getD 0 < cfg.max_average_orders ∧
          cp * cfg.base_qty ≤ balance := ⟨htrig, hcnt, h⟩
      rw [if_pos hc]
      simp [not_lt.mpr h]
    · have hc : ¬((cfg.averaging_trigger ≤
            (if position_is_long p then ((L - cp) / L) * 100
             else ((cp - L) / L) * 100)) ∧
          count.getD 0 < cfg.max_average_orders ∧
          cp * cfg.base_qty ≤ balance) := fun hand => h hand.2.2
      rw [if_neg hc]
      simp [lt_of_not_le h]

/-- C2 amended witness: with balance 100 an entry costing 60 is permitted
and an entry costing 100.01 is rejected. -/
theorem C2_amended_witness :
    check_and_enter_order btcConfig none (some 12000000) 100 ≠ none ∧
    check_and_enter_order btcConfig none (some 20002000) 100 = none := by
  constructor
  · intro h
    have h2 := (C2_amended_full_balance_guard.1 btcConfig (some 12000000)
      100 12000000 rfl (by norm_num) rfl (by norm_num)).mp h
    norm_num [btcConfig] at h2
  · exact (C2_amended_full_balance_guard.1 btcConfig (some 20002000) 100
      20002000 rfl (by norm_num) rfl (by norm_num)).mpr
      (by norm_num [btcConfig])

end DeltaTrader
